import Mathlib

/-!
# Whiteboard (OpenGL point sketching): model of `src/whiteboard.cpp`

The globals of the program (`g_points`, `g_color`, `g_mousePressed`,
`g_width`, `g_height`) become the fields of one `State`; every callback is a
function `State → … → State`.

Numbers.  The C++ code computes positions in `double` and stores them as
`float`.  `screenToNDC` is the mapping over exact rationals; `screenToNDC_float`
is the same mapping with every IEEE 754 rounding of the C++ expression.  A
division whose divisor is zero has no rational value (the C++ gives an infinity
or a NaN there): such a coordinate is `none`, every finite coordinate is
`some q`.
`g_width`/`g_height` are C `int`s that are only stored and converted to
`double`, never added or multiplied, so `Int` models them without wrap-around.
-/

namespace Whiteboard

/-- Value of `GLFW_MOUSE_BUTTON_LEFT` in the GLFW header (`GLFW_MOUSE_BUTTON_1`). -/
def GLFW_MOUSE_BUTTON_LEFT : Int := 0

/-- Value of `GLFW_PRESS` in the GLFW header. -/
def GLFW_PRESS : Int := 1

/-- Value of `GLFW_RELEASE` in the GLFW header. -/
def GLFW_RELEASE : Int := 0

/-- Record `struct Vertex { float x, y; float r, g, b; }`.  A position
component is `none` when the C++ value is not finite. -/
structure Vertex where
  x : Option ℚ
  y : Option ℚ
  r : ℚ
  g : ℚ
  b : ℚ
  deriving DecidableEq

/-- Colour triple of a vertex. -/
def Vertex.rgb (v : Vertex) : ℚ × ℚ × ℚ := (v.r, v.g, v.b)

/-- Global variables of `whiteboard.cpp`, plus the close flag of the window
that `glfwSetWindowShouldClose` sets. -/
structure State where
  g_points : List Vertex
  g_color : ℚ × ℚ × ℚ
  g_mousePressed : Bool
  g_width : Int
  g_height : Int
  shouldClose : Bool
  deriving DecidableEq

/-- Initial values of the globals: empty list, black brush, button not held,
800 by 600 viewport. -/
def initialState : State :=
  { g_points := [], g_color := (0, 0, 0), g_mousePressed := false,
    g_width := 800, g_height := 600, shouldClose := false }

/-- Quotient `a / d` of a `double` by an `int`: no finite value when `d = 0`. -/
def fdiv (a : ℚ) (d : Int) : Option ℚ :=
  if d = 0 then none else some (a / (d : ℚ))

/-- Function `screenToNDC(sx, sy, nx, ny)` taken over exact rational arithmetic:
`nx = (float)(sx / g_width) * 2.0f - 1.0f;`
`ny = (float)((g_height - sy) / g_height) * 2.0f - 1.0f;`
The two outputs are returned as a pair.  `screenToNDC_float` below is the same
function with the roundings of `double` and `float` arithmetic. -/
def screenToNDC (s : State) (sx sy : ℚ) : Option ℚ × Option ℚ :=
  ((fdiv sx s.g_width).map (fun q => q * 2 - 1),
   (fdiv ((s.g_height : ℚ) - sy) s.g_height).map (fun q => q * 2 - 1))

/-- Floor of the base-2 logarithm of `n`, by halving at most `fuel` times. -/
def log2Fuel : Nat → Nat → Nat
  | 0, _ => 0
  | fuel + 1, n => if 2 ≤ n then log2Fuel fuel (n / 2) + 1 else 0

/-- Floor of the base-2 logarithm of `n` (0 for `n = 0`). -/
def natLog2 (n : Nat) : Nat := log2Fuel n n

/-- Integer nearest to `x`, a tie going to the even one. -/
def roundHalfEven (x : ℚ) : Int :=
  if x - (⌊x⌋ : ℚ) < 1 / 2 then ⌊x⌋
  else if 1 / 2 < x - (⌊x⌋ : ℚ) then ⌊x⌋ + 1
  else if ⌊x⌋ % 2 = 0 then ⌊x⌋ else ⌊x⌋ + 1

/-- Power of two `2 ^ k` for an integer exponent. -/
def pow2 (k : Int) : ℚ :=
  if 0 ≤ k then ((2 ^ k.toNat : Nat) : ℚ) else 1 / ((2 ^ (-k).toNat : Nat) : ℚ)

/-- Exponent `e` with `2 ^ e ≤ q < 2 ^ (e + 1)`, for `q > 0`. -/
def ilog2 (q : ℚ) : Int :=
  if pow2 ((natLog2 q.num.natAbs : Int) - (natLog2 q.den : Int)) ≤ q
  then (natLog2 q.num.natAbs : Int) - (natLog2 q.den : Int)
  else (natLog2 q.num.natAbs : Int) - (natLog2 q.den : Int) - 1

/-- Rounding of a real value to an IEEE 754 binary format with `p` significand
bits and largest exponent `emax`, round to nearest, ties to even, subnormals
included.  The result is `none` when the value rounds to an infinity. -/
def roundIEEE (p : Nat) (emax : Int) (q : ℚ) : Option ℚ :=
  if q = 0 then some 0
  else
    let ulp := pow2 (max (ilog2 |q|) (1 - emax) - ((p : Int) - 1))
    let r := (roundHalfEven (q / ulp) : ℚ) * ulp
    if pow2 (emax + 1) ≤ |r| then none else some r

/-- Rounding to `double` (binary64). -/
def toDouble (q : ℚ) : Option ℚ := roundIEEE 53 1023 q

/-- Rounding to `float` (binary32). -/
def toFloat (q : ℚ) : Option ℚ := roundIEEE 24 127 q

/-- Function `screenToNDC(sx, sy, nx, ny)` with the roundings of its C++
arithmetic: the quotient `sx / g_width` and the difference and quotient
`(g_height - sy) / g_height` are `double` operations, the cast `(float)`
rounds to `float`, and `* 2.0f` and `- 1.0f` are `float` operations.  The
conversion of the `int` globals to `double` is exact.  A component is `none`
when the C++ value is an infinity or a NaN. -/
def screenToNDC_float (s : State) (sx sy : ℚ) : Option ℚ × Option ℚ :=
  ((((if s.g_width = 0 then none else toDouble (sx / (s.g_width : ℚ))).bind
        toFloat).bind
      (fun f => toFloat (f * 2))).bind (fun m => toFloat (m - 1)),
   ((((toDouble ((s.g_height : ℚ) - sy)).bind
          (fun a => if s.g_height = 0 then none else toDouble (a / (s.g_height : ℚ)))).bind
        toFloat).bind
      (fun f => toFloat (f * 2))).bind (fun m => toFloat (m - 1)))

/-- Function `framebuffer_size_callback(window, width, height)`. -/
def framebuffer_size_callback (s : State) (width height : Int) : State :=
  { s with g_width := width, g_height := height }

/-- Vertex pushed by both mouse callbacks:
`{nx, ny, g_color[0], g_color[1], g_color[2]}`. -/
def mkVertex (s : State) (sx sy : ℚ) : Vertex :=
  { x := (screenToNDC s sx sy).1, y := (screenToNDC s sx sy).2,
    r := s.g_color.1, g := s.g_color.2.1, b := s.g_color.2.2 }

/-- Function `mouse_button_callback(window, button, action, mods)`; `cx cy` is
the cursor position that `glfwGetCursorPos` reports inside the callback. -/
def mouse_button_callback (s : State) (button action : Int) (cx cy : ℚ) : State :=
  if button = GLFW_MOUSE_BUTTON_LEFT then
    if action = GLFW_PRESS then
      { s with g_mousePressed := true,
               g_points := s.g_points ++ [mkVertex s cx cy] }
    else if action = GLFW_RELEASE then
      { s with g_mousePressed := false }
    else s
  else s

/-- Function `cursor_position_callback(window, x, y)`. -/
def cursor_position_callback (s : State) (x y : ℚ) : State :=
  if s.g_mousePressed then
    { s with g_points := s.g_points ++ [mkVertex s x y] }
  else s

/-- Keys that `processInput` polls with `glfwGetKey(window, KEY) == GLFW_PRESS`. -/
structure Keys where
  escape : Bool
  key1 : Bool
  key2 : Bool
  key3 : Bool
  key4 : Bool
  keyC : Bool
  deriving DecidableEq

/-- Function `processInput(window)`: the six `if` statements in source order. -/
def processInput (s : State) (k : Keys) : State :=
  let s0 := if k.escape then { s with shouldClose := true } else s
  let s1 := if k.key1 then { s0 with g_color := (0, 0, 0) } else s0
  let s2 := if k.key2 then { s1 with g_color := (1, 0, 0) } else s1
  let s3 := if k.key3 then { s2 with g_color := (0, 1, 0) } else s2
  let s4 := if k.key4 then { s3 with g_color := (0, 0, 1) } else s3
  if k.keyC then { s4 with g_points := [] } else s4

/-- Input events of the host: the three registered callbacks and the per-frame
key poll done by `processInput`. -/
inductive Event where
  | resize (width height : Int)
  | mouseButton (button action : Int) (cx cy : ℚ)
  | cursorPos (x y : ℚ)
  | keyPoll (keys : Keys)
  deriving DecidableEq

/-- Dispatch of one event to its handler. -/
def step (s : State) : Event → State
  | .resize w h => framebuffer_size_callback s w h
  | .mouseButton b a cx cy => mouse_button_callback s b a cx cy
  | .cursorPos x y => cursor_position_callback s x y
  | .keyPoll k => processInput s k

/-- Dispatch of a sequence of events, oldest first. -/
def run (s : State) (evs : List Event) : State :=
  evs.foldl step s

/-- Left-button press with the cursor at `(cx, cy)`. -/
def press (cx cy : ℚ) : Event :=
  .mouseButton GLFW_MOUSE_BUTTON_LEFT GLFW_PRESS cx cy

/-- Left-button release with the cursor at `(cx, cy)`. -/
def release (cx cy : ℚ) : Event :=
  .mouseButton GLFW_MOUSE_BUTTON_LEFT GLFW_RELEASE cx cy

/-- Sequence of cursor-move events visiting the given screen positions in order. -/
def cursorMoves (ps : List (ℚ × ℚ)) : List Event :=
  ps.map (fun p => Event.cursorPos p.1 p.2)

/-- Key state in which no polled key is down. -/
def noKeys : Keys :=
  { escape := false, key1 := false, key2 := false, key3 := false,
    key4 := false, keyC := false }

/-- Key state in which digit key `k` is down and nothing else. -/
def digitKey (k : Nat) : Keys :=
  { noKeys with key1 := decide (k = 1), key2 := decide (k = 2),
                key3 := decide (k = 3), key4 := decide (k = 4) }

/-- Key state of the clear command: `C` is down and nothing else. -/
def onlyC : Keys := { noKeys with keyC := true }

/-- Colours that the digit keys of `processInput` assign, by key number:
1 black, 2 red, 3 green, 4 blue. -/
def palette : Nat → Option (ℚ × ℚ × ℚ)
  | 1 => some (0, 0, 0)
  | 2 => some (1, 0, 0)
  | 3 => some (0, 1, 0)
  | 4 => some (0, 0, 1)
  | _ => none

/-- Digit key number `n` (1 to 4) is down in the key state. -/
def Keys.digitHeld (k : Keys) : Nat → Bool
  | 1 => k.key1
  | 2 => k.key2
  | 3 => k.key3
  | 4 => k.key4
  | _ => false

/-- An event is the clear command when it is a key poll with `C` down. -/
def Event.isClear : Event → Bool
  | .keyPoll k => k.keyC
  | _ => false

/-- A position component is finite and lies in `[-1, 1]`. -/
def inUnit : Option ℚ → Prop
  | some q => -1 ≤ q ∧ q ≤ 1
  | none => False

instance (c : Option ℚ) : Decidable (inUnit c) := by
  cases c <;> unfold inUnit <;> infer_instance

/-- A vertex is valid: position in `[-1,1] × [-1,1]`, colour channels in `[0,1]`. -/
def Vertex.valid (v : Vertex) : Prop :=
  inUnit v.x ∧ inUnit v.y ∧
    (0 ≤ v.r ∧ v.r ≤ 1) ∧ (0 ≤ v.g ∧ v.g ≤ 1) ∧ (0 ≤ v.b ∧ v.b ≤ 1)

instance (v : Vertex) : Decidable v.valid := by
  unfold Vertex.valid; infer_instance

/-- Screen position `(x, y)` lies inside the current viewport, whose width and
height are positive. -/
def inViewport (s : State) (x y : ℚ) : Prop :=
  0 < s.g_width ∧ 0 < s.g_height ∧
    0 ≤ x ∧ x ≤ (s.g_width : ℚ) ∧ 0 ≤ y ∧ y ≤ (s.g_height : ℚ)

instance (s : State) (x y : ℚ) : Decidable (inViewport s x y) := by
  unfold inViewport; infer_instance

/-- Event `e` arrives in state `s` with an in-viewport cursor position whenever
its handler appends a point (left press, or cursor move while held). -/
def cursorInside (s : State) : Event → Prop
  | .mouseButton b a cx cy =>
      (b = GLFW_MOUSE_BUTTON_LEFT ∧ a = GLFW_PRESS) → inViewport s cx cy
  | .cursorPos x y => s.g_mousePressed = true → inViewport s x y
  | _ => True

/-- Every event of the sequence satisfies `cursorInside` in the state it arrives in. -/
def cursorInsideTrace : State → List Event → Prop
  | _, [] => True
  | s, e :: es => cursorInside s e ∧ cursorInsideTrace (step s e) es

/-- Invariant of the point store: the brush colour and every recorded vertex
are valid. -/
def State.inv (s : State) : Prop :=
  (0 ≤ s.g_color.1 ∧ s.g_color.1 ≤ 1) ∧ (0 ≤ s.g_color.2.1 ∧ s.g_color.2.1 ≤ 1) ∧
    (0 ≤ s.g_color.2.2 ∧ s.g_color.2.2 ≤ 1) ∧ ∀ v ∈ s.g_points, v.valid

end Whiteboard

/-!
# Variant `src/test/mytest1.cpp`

Same program with its own globals, a red default brush and three digit keys
(1 red, 2 green, 3 blue).
-/

namespace Mytest1

/-- Record `struct Vertex` of `mytest1.cpp`. -/
structure Vertex where
  x : Option ℚ
  y : Option ℚ
  r : ℚ
  g : ℚ
  b : ℚ
  deriving DecidableEq

/-- Global variables of `mytest1.cpp`, plus the close flag of the window. -/
structure State where
  g_vertices : List Vertex
  g_currentColor : ℚ × ℚ × ℚ
  g_mousePressed : Bool
  g_windowWidth : Int
  g_windowHeight : Int
  shouldClose : Bool
  deriving DecidableEq

/-- Initial values of the globals: empty list, red brush, 800 by 600. -/
def initialState : State :=
  { g_vertices := [], g_currentColor := (1, 0, 0), g_mousePressed := false,
    g_windowWidth := 800, g_windowHeight := 600, shouldClose := false }

/-- Function `screenToNDC` of `mytest1.cpp`, taken over exact rational
arithmetic (the C++ computes in `double` and casts the result to `float`):
`ndcX = (screenX / g_windowWidth) * 2.0 - 1.0`,
`ndcY = ((g_windowHeight - screenY) / g_windowHeight) * 2.0 - 1.0`. -/
def screenToNDC (s : State) (screenX screenY : ℚ) : Option ℚ × Option ℚ :=
  ((Whiteboard.fdiv screenX s.g_windowWidth).map (fun q => q * 2 - 1),
   (Whiteboard.fdiv ((s.g_windowHeight : ℚ) - screenY) s.g_windowHeight).map
      (fun q => q * 2 - 1))

/-- Function `mouse_button_callback` of `mytest1.cpp`; `xpos ypos` is what
`glfwGetCursorPos` reports. -/
def mouse_button_callback (s : State) (button action : Int) (xpos ypos : ℚ) : State :=
  if button = Whiteboard.GLFW_MOUSE_BUTTON_LEFT then
    if action = Whiteboard.GLFW_PRESS then
      { s with g_mousePressed := true,
               g_vertices := s.g_vertices ++
                 [{ x := (screenToNDC s xpos ypos).1, y := (screenToNDC s xpos ypos).2,
                    r := s.g_currentColor.1, g := s.g_currentColor.2.1,
                    b := s.g_currentColor.2.2 }] }
    else if action = Whiteboard.GLFW_RELEASE then
      { s with g_mousePressed := false }
    else s
  else s

/-- Function `cursor_position_callback` of `mytest1.cpp`. -/
def cursor_position_callback (s : State) (xpos ypos : ℚ) : State :=
  if s.g_mousePressed then
    { s with g_vertices := s.g_vertices ++
        [{ x := (screenToNDC s xpos ypos).1, y := (screenToNDC s xpos ypos).2,
           r := s.g_currentColor.1, g := s.g_currentColor.2.1,
           b := s.g_currentColor.2.2 }] }
  else s

/-- Keys that `processInput` of `mytest1.cpp` polls. -/
structure Keys where
  escape : Bool
  key1 : Bool
  key2 : Bool
  key3 : Bool
  keyC : Bool
  deriving DecidableEq

/-- Function `processInput` of `mytest1.cpp`: the five `if` statements in
source order. -/
def processInput (s : State) (k : Keys) : State :=
  let s0 := if k.escape then { s with shouldClose := true } else s
  let s1 := if k.key1 then { s0 with g_currentColor := (1, 0, 0) } else s0
  let s2 := if k.key2 then { s1 with g_currentColor := (0, 1, 0) } else s1
  let s3 := if k.key3 then { s2 with g_currentColor := (0, 0, 1) } else s2
  if k.keyC then { s3 with g_vertices := [] } else s3

/-- Key state in which digit key `k` is down and nothing else. -/
def digitKey (k : Nat) : Keys :=
  { escape := false, key1 := decide (k = 1), key2 := decide (k = 2),
    key3 := decide (k = 3), keyC := false }

/-- Key state of the clear command: `C` is down and nothing else. -/
def onlyC : Keys :=
  { escape := false, key1 := false, key2 := false, key3 := false, keyC := true }

end Mytest1


open Whiteboard

/-! ## Shared lemmas -/

/-- Bounds of the coordinate mapping inside a positive viewport. -/
theorem ndc_bounds (s : State) (sx sy : ℚ) (h : inViewport s sx sy) :
    ∃ nx ny : ℚ, screenToNDC s sx sy = (some nx, some ny) ∧
      -1 ≤ nx ∧ nx ≤ 1 ∧ -1 ≤ ny ∧ ny ≤ 1 := by
  obtain ⟨hw, hh, hx0, hx1, hy0, hy1⟩ := h
  have hwq : (0 : ℚ) < (s.g_width : ℚ) := by exact_mod_cast hw
  have hhq : (0 : ℚ) < (s.g_height : ℚ) := by exact_mod_cast hh
  refine ⟨sx / s.g_width * 2 - 1, ((s.g_height : ℚ) - sy) / s.g_height * 2 - 1, ?_, ?_, ?_, ?_, ?_⟩
  · simp [screenToNDC, fdiv, hw.ne', hh.ne']
  · have : 0 ≤ sx / (s.g_width : ℚ) := div_nonneg hx0 hwq.le
    linarith
  · have : sx / (s.g_width : ℚ) ≤ 1 := (div_le_one hwq).mpr hx1
    linarith
  · have : 0 ≤ ((s.g_height : ℚ) - sy) / (s.g_height : ℚ) :=
      div_nonneg (by linarith) hhq.le
    linarith
  · have : ((s.g_height : ℚ) - sy) / (s.g_height : ℚ) ≤ 1 :=
      (div_le_one hhq).mpr (by linarith)
    linarith

/-- Point list after a key poll. -/
theorem processInput_points (s : State) (k : Keys) :
    (processInput s k).g_points = if k.keyC then [] else s.g_points := by
  unfold processInput
  cases k.escape <;> cases k.key1 <;> cases k.key2 <;> cases k.key3 <;>
    cases k.key4 <;> cases k.keyC <;> rfl

/-- Brush colour after a key poll: the last digit key that is down wins. -/
theorem processInput_color (s : State) (k : Keys) :
    (processInput s k).g_color =
      if k.key4 then (0, 0, 1) else if k.key3 then (0, 1, 0)
      else if k.key2 then (1, 0, 0) else if k.key1 then (0, 0, 0) else s.g_color := by
  unfold processInput
  cases k.escape <;> cases k.key1 <;> cases k.key2 <;> cases k.key3 <;>
    cases k.key4 <;> cases k.keyC <;> rfl

/-- Viewport and pointer state are not touched by a key poll. -/
theorem processInput_frame (s : State) (k : Keys) :
    (processInput s k).g_width = s.g_width ∧ (processInput s k).g_height = s.g_height ∧
      (processInput s k).g_mousePressed = s.g_mousePressed := by
  unfold processInput
  cases k.escape <;> cases k.key1 <;> cases k.key2 <;> cases k.key3 <;>
    cases k.key4 <;> cases k.keyC <;> exact ⟨rfl, rfl, rfl⟩

/-- A left press appends exactly the vertex stamped at the cursor. -/
theorem press_points (s : State) (cx cy : ℚ) :
    (mouse_button_callback s GLFW_MOUSE_BUTTON_LEFT GLFW_PRESS cx cy).g_points =
      s.g_points ++ [mkVertex s cx cy] := by
  simp [mouse_button_callback]

/-- A cursor move while the button is held appends exactly the vertex stamped
at the cursor. -/
theorem move_points_held (s : State) (x y : ℚ) (h : s.g_mousePressed = true) :
    (cursor_position_callback s x y).g_points = s.g_points ++ [mkVertex s x y] := by
  simp [cursor_position_callback, h]

/-- A cursor move while the button is not held changes nothing. -/
theorem move_not_held (s : State) (x y : ℚ) (h : s.g_mousePressed = false) :
    cursor_position_callback s x y = s := by
  simp [cursor_position_callback, h]

/-- A vertex stamped inside the viewport with a valid brush is valid. -/
theorem mkVertex_valid (s : State) (x y : ℚ) (hs : s.inv) (h : inViewport s x y) :
    (mkVertex s x y).valid := by
  obtain ⟨nx, ny, he, h1, h2, h3, h4⟩ := ndc_bounds s x y h
  obtain ⟨hr, hg, hb, _⟩ := hs
  simp only [Vertex.valid, mkVertex, he, inUnit]
  exact ⟨⟨h1, h2⟩, ⟨h3, h4⟩, hr, hg, hb⟩

/-- One event whose appended point, if any, is stamped inside the viewport
keeps the invariant. -/
theorem step_inv (s : State) (e : Event) (hs : s.inv) (he : cursorInside s e) :
    (step s e).inv := by
  cases e with
  | resize w h => exact hs
  | mouseButton b a cx cy =>
    simp only [step, mouse_button_callback]
    by_cases hb : b = GLFW_MOUSE_BUTTON_LEFT
    · by_cases ha : a = GLFW_PRESS
      · have hv := mkVertex_valid s cx cy hs (he ⟨hb, ha⟩)
        obtain ⟨hr, hg, hbl, hp⟩ := hs
        simp only [hb, ha, if_true]
        refine ⟨hr, hg, hbl, ?_⟩
        intro v hv2
        rcases List.mem_append.mp hv2 with h1 | h1
        · exact hp v h1
        · rw [List.mem_singleton.mp h1]; exact hv
      · simp only [hb, ha, if_true, if_false]
        split
        · exact hs
        · exact hs
    · simp only [hb, if_false]; exact hs
  | cursorPos x y =>
    simp only [step, cursor_position_callback]
    by_cases hm : s.g_mousePressed = true
    · have hv := mkVertex_valid s x y hs (he hm)
      obtain ⟨hr, hg, hbl, hp⟩ := hs
      simp only [hm, if_true]
      refine ⟨hr, hg, hbl, ?_⟩
      intro v hv2
      rcases List.mem_append.mp hv2 with h1 | h1
      · exact hp v h1
      · rw [List.mem_singleton.mp h1]; exact hv
    · simp only [hm]; exact hs
  | keyPoll k =>
    obtain ⟨hr, hg, hbl, hp⟩ := hs
    simp only [step, State.inv, processInput_points, processInput_color]
    refine ⟨?_, ?_, ?_, ?_⟩
    · cases k.key4 <;> cases k.key3 <;> cases k.key2 <;> cases k.key1 <;>
        first | exact hr | norm_num
    · cases k.key4 <;> cases k.key3 <;> cases k.key2 <;> cases k.key1 <;>
        first | exact hg | norm_num
    · cases k.key4 <;> cases k.key3 <;> cases k.key2 <;> cases k.key1 <;>
        first | exact hbl | norm_num
    · cases k.keyC
      · simpa using hp
      · simp

/-- A whole event sequence stamped inside the viewport keeps the invariant. -/
theorem run_inv (evs : List Event) :
    ∀ s : State, s.inv → cursorInsideTrace s evs → (run s evs).inv := by
  induction evs with
  | nil => intro s hs _; exact hs
  | cons e es ih =>
    intro s hs ht
    exact ih (step s e) (step_inv s e hs ht.1) ht.2

/-- The initial state satisfies the invariant. -/
theorem initialState_inv : initialState.inv := by
  simp [State.inv, initialState]

/-! ## Rounding to `double` and `float` -/

/-- Bracketing of `n` by the powers of two around `log2Fuel fuel n`. -/
theorem log2Fuel_spec (fuel : Nat) :
    ∀ n : Nat, n ≤ fuel → 0 < n →
      2 ^ log2Fuel fuel n ≤ n ∧ n < 2 ^ (log2Fuel fuel n + 1) := by
  induction fuel with
  | zero => intro n h0 hpos; omega
  | succ fuel ih =>
    intro n hle hpos
    unfold log2Fuel
    by_cases h2 : 2 ≤ n
    · obtain ⟨h1, h3⟩ := ih (n / 2) (by omega) (by omega)
      simp only [h2, if_true]
      rw [pow_succ, pow_succ]
      rw [pow_succ] at h3
      constructor <;> omega
    · simp only [h2, if_false]
      constructor <;> simp <;> omega

/-- Bracketing of `n` by the powers of two around `natLog2 n`. -/
theorem natLog2_spec (n : Nat) (hpos : 0 < n) :
    2 ^ natLog2 n ≤ n ∧ n < 2 ^ (natLog2 n + 1) :=
  log2Fuel_spec n n le_rfl hpos

/-- An integer rounds to itself. -/
theorem roundHalfEven_intCast (z : Int) : roundHalfEven (z : ℚ) = z := by
  simp [roundHalfEven]

/-- A positive integer below `2 ^ 53` is a `double`: its rounding is exact. -/
theorem toDouble_natCast (n : Nat) (hpos : 0 < n) (hlt : n < 2 ^ 53) :
    toDouble (n : ℚ) = some (n : ℚ) := by
  obtain ⟨hlo, hhi⟩ := natLog2_spec n hpos
  have hL : natLog2 n ≤ 52 := by
    by_contra hc
    have : 2 ^ 53 ≤ 2 ^ natLog2 n := Nat.pow_le_pow_right (by norm_num) (by omega)
    omega
  have hq : (n : ℚ) ≠ 0 := by exact_mod_cast hpos.ne'
  have habs : |(n : ℚ)| = n := abs_of_nonneg (by positivity)
  have hil : ilog2 (n : ℚ) = (natLog2 n : Int) := by
    have h1 : natLog2 1 = 0 := rfl
    have hp : pow2 ((natLog2 n : Int)) = ((2 ^ natLog2 n : Nat) : ℚ) := by
      simp [pow2]
    simp only [ilog2, Rat.num_natCast, Rat.den_natCast, Int.natAbs_ofNat, h1]
    simp only [Nat.cast_zero, sub_zero, hp]
    rw [if_pos (by exact_mod_cast hlo)]
  have hulp : pow2 (max (natLog2 n : Int) (1 - 1023) - (((53 : Nat) : Int) - 1)) =
      1 / ((2 ^ (52 - natLog2 n) : Nat) : ℚ) := by
    have hmax : max (natLog2 n : Int) (1 - 1023) = (natLog2 n : Int) :=
      max_eq_left (by omega)
    rw [hmax]
    unfold pow2
    by_cases h52 : natLog2 n = 52
    · rw [h52]; norm_num
    · have hneg : ¬ (0 : Int) ≤ (natLog2 n : Int) - (((53 : Nat) : Int) - 1) := by
        push_cast; omega
      rw [if_neg hneg]
      have : (-((natLog2 n : Int) - (((53 : Nat) : Int) - 1))).toNat = 52 - natLog2 n := by
        push_cast; omega
      rw [this]
  have hdiv : (n : ℚ) / (1 / ((2 ^ (52 - natLog2 n) : Nat) : ℚ)) =
      (((n * 2 ^ (52 - natLog2 n) : Nat) : Int) : ℚ) := by
    push_cast
    field_simp
  have hback : ((((n * 2 ^ (52 - natLog2 n) : Nat) : Int) : ℚ)) *
      (1 / ((2 ^ (52 - natLog2 n) : Nat) : ℚ)) = (n : ℚ) := by
    push_cast
    field_simp
  have hbig : ¬ pow2 (1023 + 1) ≤ |(n : ℚ)| := by
    rw [habs]
    have he : (1023 + 1 : Int).toNat = 53 + 971 := by decide
    have h1 : pow2 (1023 + 1) = ((2 ^ (53 + 971) : Nat) : ℚ) := by
      unfold pow2
      rw [if_pos (by decide), he]
    rw [h1]
    have hpow : ∀ a b : Nat, a ≤ b → 2 ^ a ≤ 2 ^ b :=
      fun a b hab => Nat.pow_le_pow_right (by norm_num) hab
    have h2 : n < 2 ^ (53 + 971) :=
      lt_of_lt_of_le hlt (hpow 53 (53 + 971) (Nat.le_add_right 53 971))
    exact not_le.mpr (Nat.cast_lt.mpr h2)
  unfold toDouble roundIEEE
  rw [if_neg hq]
  rw [habs] at hbig
  simp only [habs, hil, hulp, hdiv, roundHalfEven_intCast, hback]
  rw [if_neg hbig]

/-- Values of the roundings met at the two corners. -/
theorem round_corner_values :
    toDouble 0 = some 0 ∧ toDouble 1 = some 1 ∧ toFloat 0 = some 0 ∧
      toFloat 1 = some 1 ∧ toFloat 2 = some 2 ∧ toFloat (-1) = some (-1) := by
  decide!

/-- Both corners in `float` arithmetic. -/
theorem screenToNDC_float_corners (s : State) (hw : 0 < s.g_width) (hh : 0 < s.g_height)
    (hhi : s.g_height < 2 ^ 31) :
    screenToNDC_float s 0 s.g_height = (some (-1), some (-1)) ∧
    screenToNDC_float s s.g_width 0 = (some 1, some 1) := by
  obtain ⟨d0, d1, f0, f1, f2, fm1⟩ := round_corner_values
  have hwq : (s.g_width : ℚ) ≠ 0 := by exact_mod_cast hw.ne'
  have hhq : (s.g_height : ℚ) ≠ 0 := by exact_mod_cast hh.ne'
  have hnat : ((s.g_height.toNat : Nat) : ℚ) = (s.g_height : ℚ) := by
    have : ((s.g_height.toNat : Nat) : Int) = s.g_height := Int.toNat_of_nonneg hh.le
    exact_mod_cast this
  have hdh : toDouble (s.g_height : ℚ) = some (s.g_height : ℚ) := by
    rw [← hnat]
    exact toDouble_natCast s.g_height.toNat (by omega) (by omega)
  constructor
  · simp [screenToNDC_float, hw.ne', hh.ne', d0, f0, fm1]
  · simp [screenToNDC_float, hw.ne', hh.ne', hwq, hhq, hdh, d1, f1, f2]
    norm_num [f1]

/-- The power of two `pow2 k` is `2 ^ k`. -/
theorem pow2_eq_zpow (k : Int) : pow2 k = (2 : ℚ) ^ k := by
  unfold pow2
  by_cases hk : 0 ≤ k
  · rw [if_pos hk]
    obtain ⟨n, rfl⟩ := Int.eq_ofNat_of_zero_le hk
    simp
  · rw [if_neg hk]
    obtain ⟨n, hn⟩ := Int.eq_ofNat_of_zero_le (show (0 : Int) ≤ -k by omega)
    have hk2 : k = -(n : Int) := by omega
    subst hk2
    simp

/-- Powers of two grow with the exponent. -/
theorem pow2_mono {a b : Int} (h : a ≤ b) : pow2 a ≤ pow2 b := by
  rw [pow2_eq_zpow, pow2_eq_zpow]
  exact zpow_le_zpow_right₀ (by norm_num) h

/-- Powers of two are positive. -/
theorem pow2_pos (k : Int) : 0 < pow2 k := by
  rw [pow2_eq_zpow]
  positivity

/-- Doubling a power of two. -/
theorem pow2_succ (k : Int) : pow2 (k + 1) = 2 * pow2 k := by
  rw [pow2_eq_zpow, pow2_eq_zpow, zpow_add_one₀ (by norm_num)]
  ring

/-- Rounding to the nearest integer moves a value by at most one half. -/
theorem roundHalfEven_close (x : ℚ) : |(roundHalfEven x : ℚ) - x| ≤ 1 / 2 := by
  have h0 : (0 : ℚ) ≤ x - (⌊x⌋ : ℚ) := by linarith [Int.floor_le x]
  have h1 : x - (⌊x⌋ : ℚ) < 1 := by linarith [Int.lt_floor_add_one x]
  unfold roundHalfEven
  rw [abs_le]
  split_ifs with ha hb hc
  · constructor <;> linarith
  · push_cast
    constructor <;> linarith
  · have : x - (⌊x⌋ : ℚ) = 1 / 2 := le_antisymm (not_lt.mp hb) (not_lt.mp ha)
    constructor <;> linarith
  · have : x - (⌊x⌋ : ℚ) = 1 / 2 := le_antisymm (not_lt.mp hb) (not_lt.mp ha)
    push_cast
    constructor <;> linarith

/-- The exponent found by `ilog2` is not above the value: `2 ^ ilog2 q ≤ q`. -/
theorem pow2_ilog2_le (q : ℚ) (hq : 0 < q) : pow2 (ilog2 q) ≤ q := by
  unfold ilog2
  split_ifs with h
  · exact h
  · have hnum : 0 < q.num := Rat.num_pos.mpr hq
    have hn : 0 < q.num.natAbs := Int.natAbs_pos.mpr hnum.ne'
    obtain ⟨hlo, -⟩ := natLog2_spec q.num.natAbs hn
    obtain ⟨-, hhi⟩ := natLog2_spec q.den q.den_pos
    have hqv : q = (q.num.natAbs : ℚ) / (q.den : ℚ) := by
      have h2 : ((q.num.natAbs : Nat) : ℚ) = (q.num : ℚ) := by
        rw [Nat.cast_natAbs, abs_of_pos hnum]
      rw [h2]
      exact (Rat.num_div_den q).symm
    have hden : (0 : ℚ) < (q.den : ℚ) := by exact_mod_cast q.den_pos
    have e1 : pow2 ((natLog2 q.num.natAbs : Int) - (natLog2 q.den : Int) - 1) =
        (2 : ℚ) ^ natLog2 q.num.natAbs / (2 : ℚ) ^ (natLog2 q.den + 1) := by
      rw [pow2_eq_zpow]
      have : ((natLog2 q.num.natAbs : Int) - (natLog2 q.den : Int) - 1) =
          (natLog2 q.num.natAbs : Int) - ((natLog2 q.den + 1 : Nat) : Int) := by
        push_cast; ring
      rw [this, zpow_sub₀ (by norm_num), zpow_natCast, zpow_natCast]
    rw [e1]
    have hlo2 : (2 : ℚ) ^ natLog2 q.num.natAbs ≤ (q.num.natAbs : ℚ) := by
      exact_mod_cast hlo
    have hhi2 : (q.den : ℚ) ≤ (2 : ℚ) ^ (natLog2 q.den + 1) := by
      exact_mod_cast hhi.le
    calc (2 : ℚ) ^ natLog2 q.num.natAbs / (2 : ℚ) ^ (natLog2 q.den + 1)
        ≤ (q.num.natAbs : ℚ) / (q.den : ℚ) :=
          div_le_div₀ (by positivity) hlo2 hden hhi2
      _ = q := hqv.symm

/-- Rounding error: a value below `2 ^ (k + 1)` in magnitude, with `k` inside
the exponent range, rounds to a finite value at most `2 ^ (k - (p - 1)) / 2`
away from it. -/
theorem roundIEEE_close (p : Nat) (emax k : Int) (q : ℚ)
    (hq : |q| < pow2 (k + 1)) (hk1 : 1 - emax ≤ k) (hk2 : k + 1 ≤ emax) :
    ∃ r : ℚ, roundIEEE p emax q = some r ∧
      |r - q| ≤ pow2 (k - ((p : Int) - 1)) / 2 ∧ |r| < pow2 (k + 2) := by
  by_cases h0 : q = 0
  · subst h0
    refine ⟨0, by simp [roundIEEE], ?_, ?_⟩
    · have := pow2_pos (k - ((p : Int) - 1))
      simp only [sub_self, abs_zero]
      linarith
    · simpa using pow2_pos _
  · have hpos : 0 < |q| := abs_pos.mpr h0
    have hil : ilog2 |q| ≤ k := by
      by_contra hc
      have h1 : pow2 (k + 1) ≤ pow2 (ilog2 |q|) := pow2_mono (by omega)
      have h2 := pow2_ilog2_le |q| hpos
      linarith
    have he : max (ilog2 |q|) (1 - emax) ≤ k := max_le hil hk1
    have hulp : pow2 (max (ilog2 |q|) (1 - emax) - ((p : Int) - 1)) ≤
        pow2 (k - ((p : Int) - 1)) := pow2_mono (by omega)
    have hup := pow2_pos (max (ilog2 |q|) (1 - emax) - ((p : Int) - 1))
    set ulp := pow2 (max (ilog2 |q|) (1 - emax) - ((p : Int) - 1)) with hulpdef
    have hr := roundHalfEven_close (q / ulp)
    have herr : |(roundHalfEven (q / ulp) : ℚ) * ulp - q| ≤ ulp / 2 := by
      have : (roundHalfEven (q / ulp) : ℚ) * ulp - q =
          ((roundHalfEven (q / ulp) : ℚ) - q / ulp) * ulp := by
        field_simp
      rw [this, abs_mul, abs_of_pos hup]
      calc |(roundHalfEven (q / ulp) : ℚ) - q / ulp| * ulp ≤ 1 / 2 * ulp :=
            mul_le_mul_of_nonneg_right hr hup.le
        _ = ulp / 2 := by ring
    have hkp : pow2 (k - ((p : Int) - 1)) ≤ pow2 (k + 1) := pow2_mono (by omega)
    have hk2' : pow2 (k + 2) = 2 * pow2 (k + 1) := by
      have : k + 2 = (k + 1) + 1 := by ring
      rw [this, pow2_succ]
    have hbound : |(roundHalfEven (q / ulp) : ℚ) * ulp| < pow2 (k + 2) := by
      have h1 : |(roundHalfEven (q / ulp) : ℚ) * ulp| ≤
          |(roundHalfEven (q / ulp) : ℚ) * ulp - q| + |q| := by
        have := abs_add ((roundHalfEven (q / ulp) : ℚ) * ulp - q) q
        simpa using this
      have hp2 := pow2_pos (k + 1)
      rw [hk2']
      linarith
    have hno : ¬ pow2 (emax + 1) ≤ |(roundHalfEven (q / ulp) : ℚ) * ulp| := by
      have : pow2 (k + 2) ≤ pow2 (emax + 1) := pow2_mono (by omega)
      exact not_le.mpr (lt_of_lt_of_le hbound this)
    refine ⟨(roundHalfEven (q / ulp) : ℚ) * ulp, ?_, ?_, hbound⟩
    · unfold roundIEEE
      rw [if_neg h0]
      simp only [← hulpdef]
      rw [if_neg hno]
    · linarith

/-- Values of the powers of two used in the error bounds. -/
theorem pow2_values :
    pow2 (0 + 1) = 2 ∧ pow2 (1 + 1) = 4 ∧ pow2 (2 + 1) = 8 ∧ pow2 (30 + 1) = 2 ^ 31 ∧
    pow2 (0 - (((24 : Nat) : Int) - 1)) / 2 = 1 / 2 ^ 24 ∧
    pow2 (1 - (((24 : Nat) : Int) - 1)) / 2 = 1 / 2 ^ 23 ∧
    pow2 (2 - (((24 : Nat) : Int) - 1)) / 2 = 1 / 2 ^ 22 ∧
    pow2 (0 - (((53 : Nat) : Int) - 1)) / 2 = 1 / 2 ^ 53 ∧
    pow2 (30 - (((53 : Nat) : Int) - 1)) / 2 = 1 / 2 ^ 23 := by
  decide!

/-- The `float` part of `screenToNDC`: a `double` within `2 ^ -22` of a value
`x` in `[0, 1]` is cast, doubled and decremented to a finite `float` within
`2 ^ -20` of `x * 2 - 1`. -/
theorem float_tail_close (d x : ℚ) (hd : |d - x| ≤ 1 / 2 ^ 22) (hx0 : 0 ≤ x) (hx1 : x ≤ 1) :
    ∃ n : ℚ, ((((some d : Option ℚ).bind toFloat).bind
        (fun f => toFloat (f * 2))).bind (fun m => toFloat (m - 1))) = some n ∧
      |n - (x * 2 - 1)| ≤ 1 / 2 ^ 20 := by
  obtain ⟨p1, p2, p3, -, e24, e23, e22, -, -⟩ := pow2_values
  have hdab := abs_le.mp hd
  have hdlt : |d| < pow2 (0 + 1) := by
    rw [p1, abs_lt]; constructor <;> norm_num at hdab ⊢ <;> linarith
  obtain ⟨f, hf, hfe, -⟩ := roundIEEE_close 24 127 0 d hdlt (by norm_num) (by norm_num)
  rw [e24] at hfe
  have hfab := abs_le.mp hfe
  have hflt : |f * 2| < pow2 (1 + 1) := by
    rw [p2, abs_lt]; constructor <;> norm_num at hdab hfab ⊢ <;> linarith
  obtain ⟨m, hm, hme, -⟩ := roundIEEE_close 24 127 1 (f * 2) hflt (by norm_num) (by norm_num)
  rw [e23] at hme
  have hmab := abs_le.mp hme
  have hmlt : |m - 1| < pow2 (2 + 1) := by
    rw [p3, abs_lt]; constructor <;> norm_num at hdab hfab hmab ⊢ <;> linarith
  obtain ⟨n, hn, hne, -⟩ := roundIEEE_close 24 127 2 (m - 1) hmlt (by norm_num) (by norm_num)
  rw [e22] at hne
  have hnab := abs_le.mp hne
  refine ⟨n, ?_, ?_⟩
  · simp only [Option.some_bind, toFloat, hf, hm, hn]
  · rw [abs_le]
    constructor <;> norm_num at hdab hfab hmab hnab ⊢ <;> linarith

/-- Inside a positive viewport (height a C `int`) the `float` arithmetic of
`screenToNDC` yields finite values within `2 ^ -20` of the exact formula. -/
theorem screenToNDC_float_close (s : State) (sx sy : ℚ) (h : inViewport s sx sy)
    (hhi : s.g_height < 2 ^ 31) :
    ∃ nx ny : ℚ, screenToNDC_float s sx sy = (some nx, some ny) ∧
      |nx - (sx / (s.g_width : ℚ) * 2 - 1)| ≤ 1 / 2 ^ 20 ∧
      |ny - (((s.g_height : ℚ) - sy) / (s.g_height : ℚ) * 2 - 1)| ≤ 1 / 2 ^ 20 := by
  obtain ⟨hw, hh, hx0, hx1, hy0, hy1⟩ := h
  obtain ⟨p1, -, -, p31, -, -, -, e53, e23d⟩ := pow2_values
  have hwq : (0 : ℚ) < (s.g_width : ℚ) := by exact_mod_cast hw
  have hhq : (0 : ℚ) < (s.g_height : ℚ) := by exact_mod_cast hh
  have hh1 : (1 : ℚ) ≤ (s.g_height : ℚ) := by exact_mod_cast hh
  have hhlt : (s.g_height : ℚ) < 2 ^ 31 := by exact_mod_cast hhi
  have hxa : 0 ≤ sx / (s.g_width : ℚ) := div_nonneg hx0 hwq.le
  have hxb : sx / (s.g_width : ℚ) ≤ 1 := (div_le_one hwq).mpr hx1
  have hxlt : |sx / (s.g_width : ℚ)| < pow2 (0 + 1) := by
    rw [p1, abs_lt]; constructor <;> linarith
  obtain ⟨dx, hdx, hdxe, -⟩ :=
    roundIEEE_close 53 1023 0 (sx / (s.g_width : ℚ)) hxlt (by norm_num) (by norm_num)
  rw [e53] at hdxe
  obtain ⟨nx, hnx, hnxe⟩ := float_tail_close dx (sx / (s.g_width : ℚ))
    (le_trans hdxe (by norm_num)) hxa hxb
  have hya : 0 ≤ ((s.g_height : ℚ) - sy) / (s.g_height : ℚ) :=
    div_nonneg (by linarith) hhq.le
  have hyb : ((s.g_height : ℚ) - sy) / (s.g_height : ℚ) ≤ 1 :=
    (div_le_one hhq).mpr (by linarith)
  have hsub : |(s.g_height : ℚ) - sy| < pow2 (30 + 1) := by
    rw [p31, abs_lt]; constructor <;> linarith
  obtain ⟨a, ha, hae, -⟩ :=
    roundIEEE_close 53 1023 30 ((s.g_height : ℚ) - sy) hsub (by norm_num) (by norm_num)
  rw [e23d] at hae
  have hquot : |a / (s.g_height : ℚ) - ((s.g_height : ℚ) - sy) / (s.g_height : ℚ)| ≤
      1 / 2 ^ 23 := by
    rw [← sub_div, abs_div, abs_of_pos hhq]
    calc |a - ((s.g_height : ℚ) - sy)| / (s.g_height : ℚ)
        ≤ |a - ((s.g_height : ℚ) - sy)| / 1 :=
          div_le_div_of_nonneg_left (abs_nonneg _) (by norm_num) hh1
      _ ≤ 1 / 2 ^ 23 := by simpa using hae
  have hquotab := abs_le.mp hquot
  have hqlt : |a / (s.g_height : ℚ)| < pow2 (0 + 1) := by
    rw [p1, abs_lt]; constructor <;> norm_num at hquotab ⊢ <;> linarith
  obtain ⟨dy, hdy, hdye, -⟩ :=
    roundIEEE_close 53 1023 0 (a / (s.g_height : ℚ)) hqlt (by norm_num) (by norm_num)
  rw [e53] at hdye
  have hdyab := abs_le.mp hdye
  have hdyx : |dy - ((s.g_height : ℚ) - sy) / (s.g_height : ℚ)| ≤ 1 / 2 ^ 22 := by
    rw [abs_le]
    constructor <;> norm_num at hquotab hdyab ⊢ <;> linarith
  obtain ⟨ny, hny, hnye⟩ := float_tail_close dy _ hdyx hya hyb
  refine ⟨nx, ny, ?_, hnxe, hnye⟩
  unfold screenToNDC_float
  rw [if_neg hw.ne']
  simp only [toDouble] at hnx hny ⊢
  rw [hdx, hnx, ha]
  simp only [Option.some_bind, if_neg hh.ne']
  rw [hdy, hny]

/-! ## Coordinate mapping -/

/-- C1: with positive width and height, every screen coordinate inside
`[0,width] × [0,height]` is mapped by `screenToNDC` to finite coordinates
`(nx, ny)` with `-1 ≤ nx ≤ 1` and `-1 ≤ ny ≤ 1`. -/
theorem screenToNDC_in_range (s : State) (sx sy : ℚ)
    (hw : 0 < s.g_width) (hh : 0 < s.g_height)
    (hx0 : 0 ≤ sx) (hx1 : sx ≤ s.g_width) (hy0 : 0 ≤ sy) (hy1 : sy ≤ s.g_height) :
    ∃ nx ny : ℚ, screenToNDC s sx sy = (some nx, some ny) ∧
      -1 ≤ nx ∧ nx ≤ 1 ∧ -1 ≤ ny ∧ ny ≤ 1 :=
  ndc_bounds s sx sy ⟨hw, hh, hx0, hx1, hy0, hy1⟩

/-- Witness for C1: the centre of the initial 800 by 600 viewport. -/
theorem screenToNDC_in_range_witness :
    (0 < initialState.g_width ∧ 0 < initialState.g_height ∧
      (0 : ℚ) ≤ 400 ∧ (400 : ℚ) ≤ initialState.g_width ∧
      (0 : ℚ) ≤ 300 ∧ (300 : ℚ) ≤ initialState.g_height) ∧
    ∃ nx ny : ℚ, screenToNDC initialState 400 300 = (some nx, some ny) ∧
      -1 ≤ nx ∧ nx ≤ 1 ∧ -1 ≤ ny ∧ ny ≤ 1 :=
  ⟨⟨by decide, by decide, by norm_num, by norm_num [initialState], by norm_num,
      by norm_num [initialState]⟩,
    screenToNDC_in_range initialState 400 300 (by decide) (by decide)
      (by norm_num) (by norm_num [initialState]) (by norm_num)
      (by norm_num [initialState])⟩

/-- C2, as stated, fails away from the corners: in a 300 by 300 viewport the
click at `(100, 200)` is stored as `-5592405/16777216` in both components, the
`float` nearest to the value of the formula, and not as
`(100 / 300) * 2 - 1 = -1/3`. -/
theorem screenToNDC_formula_rounded :
    screenToNDC_float { initialState with g_width := 300, g_height := 300 } 100 200 =
      (some (-5592405 / 16777216), some (-5592405 / 16777216)) ∧
    ¬ screenToNDC_float { initialState with g_width := 300, g_height := 300 } 100 200 =
      (some (100 / ((300 : Int) : ℚ) * 2 - 1),
       some ((((300 : Int) : ℚ) - 200) / ((300 : Int) : ℚ) * 2 - 1)) := by
  decide!

/-- C2, amended: with positive width and height, `screenToNDC` sends the
bottom-left screen corner `(0, height)` exactly to `(-1, -1)` and the top-right
screen corner `(width, 0)` exactly to `(1, 1)`, in the `float` arithmetic of the
code (height being a C `int`, below `2 ^ 31`) as well as over exact rationals;
over exact rational arithmetic `nx = (sx / width) * 2 - 1` and
`ny = ((height - sy) / height) * 2 - 1`, and for a position inside the viewport
the value the code stores is finite and within `2 ^ -20` of that value. -/
theorem screenToNDC_corners (s : State) (hw : 0 < s.g_width) (hh : 0 < s.g_height) :
    (s.g_height < 2 ^ 31 →
      screenToNDC_float s 0 s.g_height = (some (-1), some (-1)) ∧
      screenToNDC_float s s.g_width 0 = (some 1, some 1)) ∧
    screenToNDC s 0 s.g_height = (some (-1), some (-1)) ∧
    screenToNDC s s.g_width 0 = (some 1, some 1) ∧
    (∀ sx sy : ℚ, screenToNDC s sx sy =
      (some (sx / (s.g_width : ℚ) * 2 - 1),
       some (((s.g_height : ℚ) - sy) / (s.g_height : ℚ) * 2 - 1))) ∧
    (∀ sx sy : ℚ, inViewport s sx sy → s.g_height < 2 ^ 31 →
      ∃ nx ny : ℚ, screenToNDC_float s sx sy = (some nx, some ny) ∧
        |nx - (sx / (s.g_width : ℚ) * 2 - 1)| ≤ 1 / 2 ^ 20 ∧
        |ny - (((s.g_height : ℚ) - sy) / (s.g_height : ℚ) * 2 - 1)| ≤ 1 / 2 ^ 20) := by
  have hwq : (s.g_width : ℚ) ≠ 0 := by exact_mod_cast hw.ne'
  have hhq : (s.g_height : ℚ) ≠ 0 := by exact_mod_cast hh.ne'
  refine ⟨fun hhi => screenToNDC_float_corners s hw hh hhi, ?_, ?_, ?_,
    fun sx sy hin hhi => screenToNDC_float_close s sx sy hin hhi⟩
  · simp [screenToNDC, fdiv, hw.ne', hh.ne']
  · simp [screenToNDC, fdiv, hw.ne', hh.ne', hwq, hhq]
    norm_num
  · intro sx sy
    simp [screenToNDC, fdiv, hw.ne', hh.ne']

/-- Witness for the amended C2: the initial 800 by 600 viewport, its two
corners and the position `(100, 200)`. -/
theorem screenToNDC_corners_witness :
    (0 < initialState.g_width ∧ 0 < initialState.g_height ∧
      initialState.g_height < 2 ^ 31 ∧ inViewport initialState 100 200) ∧
    (screenToNDC_float initialState 0 initialState.g_height = (some (-1), some (-1)) ∧
      screenToNDC_float initialState initialState.g_width 0 = (some 1, some 1)) ∧
    screenToNDC initialState 0 initialState.g_height = (some (-1), some (-1)) ∧
    screenToNDC initialState initialState.g_width 0 = (some 1, some 1) ∧
    (∃ nx ny : ℚ, screenToNDC_float initialState 100 200 = (some nx, some ny) ∧
        |nx - (100 / (initialState.g_width : ℚ) * 2 - 1)| ≤ 1 / 2 ^ 20 ∧
        |ny - (((initialState.g_height : ℚ) - 200) / (initialState.g_height : ℚ) * 2 - 1)| ≤
          1 / 2 ^ 20) :=
  ⟨⟨by decide, by decide, by decide, by decide!⟩,
   (screenToNDC_corners initialState (by decide) (by decide)).1 (by decide),
   (screenToNDC_corners initialState (by decide) (by decide)).2.1,
   (screenToNDC_corners initialState (by decide) (by decide)).2.2.1,
   (screenToNDC_corners initialState (by decide) (by decide)).2.2.2.2 100 200
      (by decide!) (by decide)⟩

/-! ## Validity of recorded points -/

/-- C3, as stated, fails: from the initial state a left press at `(400, 300)`
followed by a cursor move to `(1000, 300)` while held (the cursor dragged past
the right edge of the 800 pixel wide viewport) records a vertex with
`x = 3/2`, outside `[-1, 1]`. -/
theorem reachable_points_valid_fails :
    ¬ ∀ evs : List Event, ∀ v ∈ (run initialState evs).g_points, v.valid := by
  intro h
  have h1 := h [press 400 300, .cursorPos 1000 300]
    { x := some (3 / 2), y := some 0, r := 0, g := 0, b := 0 }
    (by
      simp [run, step, press, mouse_button_callback, cursor_position_callback,
        mkVertex, screenToNDC, fdiv, initialState, GLFW_MOUSE_BUTTON_LEFT, GLFW_PRESS]
      norm_num)
  simp [Vertex.valid, inUnit] at h1
  norm_num at h1

/-- C3, amended: in every state reached from the initial state by events
whose point-appending handlers (left press, cursor move while held) run with
the cursor inside the then-current viewport of positive width and height,
every recorded vertex has `x`, `y` in `[-1, 1]` and `r`, `g`, `b` in `[0, 1]`. -/
theorem reachable_points_valid (evs : List Event)
    (h : cursorInsideTrace initialState evs) :
    ∀ v ∈ (run initialState evs).g_points, v.valid :=
  (run_inv evs initialState initialState_inv h).2.2.2

/-- Witness for the amended C3: press, drag, resize, recolour, press again. -/
theorem reachable_points_valid_witness :
    cursorInsideTrace initialState
        [press 0 0, .cursorPos 800 600, .resize 400 200, .keyPoll (digitKey 4),
         .cursorPos 400 100] ∧
      ∀ v ∈ (run initialState
        [press 0 0, .cursorPos 800 600, .resize 400 200, .keyPoll (digitKey 4),
         .cursorPos 400 100]).g_points, v.valid :=
  ⟨by
    simp [cursorInsideTrace, cursorInside, inViewport, step, press,
      mouse_button_callback, cursor_position_callback, framebuffer_size_callback,
      processInput, digitKey, noKeys, initialState, GLFW_MOUSE_BUTTON_LEFT, GLFW_PRESS]
    norm_num,
   reachable_points_valid _ (by
    simp [cursorInsideTrace, cursorInside, inViewport, step, press,
      mouse_button_callback, cursor_position_callback, framebuffer_size_callback,
      processInput, digitKey, noKeys, initialState, GLFW_MOUSE_BUTTON_LEFT, GLFW_PRESS]
    norm_num)⟩

/-! ## End-to-end scenario -/

/-- C4, as stated, fails on `whiteboard.cpp`: after press at `(0,0)`, drag to
`(800,600)` and release, polling digit key 2 and pressing at `(400,300)`
records the third vertex at `(0,0)` with colour red `(1,0,0)`, not green. -/
theorem scenario_key2_not_green :
    (run initialState [press 0 0, .cursorPos 800 600, release 800 600,
        .keyPoll (digitKey 2), press 400 300]).g_points =
      [{ x := some (-1), y := some 1, r := 0, g := 0, b := 0 },
       { x := some 1, y := some (-1), r := 0, g := 0, b := 0 },
       { x := some 0, y := some 0, r := 1, g := 0, b := 0 }] ∧
    ¬ ∃ v, (run initialState [press 0 0, .cursorPos 800 600, release 800 600,
        .keyPoll (digitKey 2), press 400 300]).g_points.getLast? = some v ∧
        v.rgb = (0, 1, 0) := by
  have h : (run initialState [press 0 0, .cursorPos 800 600, release 800 600,
        .keyPoll (digitKey 2), press 400 300]).g_points =
      [{ x := some (-1), y := some 1, r := 0, g := 0, b := 0 },
       { x := some 1, y := some (-1), r := 0, g := 0, b := 0 },
       { x := some 0, y := some 0, r := 1, g := 0, b := 0 }] := by
    simp [run, step, press, release, mouse_button_callback, cursor_position_callback,
      processInput, digitKey, noKeys, mkVertex, screenToNDC, fdiv, initialState,
      GLFW_MOUSE_BUTTON_LEFT, GLFW_PRESS, GLFW_RELEASE]
    norm_num
  refine ⟨h, ?_⟩
  rw [h]
  rintro ⟨v, hv, hc⟩
  simp at hv
  subst hv
  simp [Vertex.rgb] at hc

/-- C4, amended: from the initial 800 by 600 state a left press at `(0,0)`
records a vertex at `(-1, 1)`; a cursor move to `(800,600)` while held records
a further vertex at `(1, -1)`; after release, selecting green (digit key 3 in
`whiteboard.cpp`, digit key 2 in the variant `mytest1.cpp`) and pressing at
`(400,300)` records a vertex at `(0, 0)` with colour green `(0, 1, 0)`; the
clear command then leaves a list of length 0. -/
theorem scenario_end_to_end :
    ((run initialState [press 0 0]).g_points =
        [{ x := some (-1), y := some 1, r := 0, g := 0, b := 0 }] ∧
     (run initialState [press 0 0, .cursorPos 800 600]).g_points =
        [{ x := some (-1), y := some 1, r := 0, g := 0, b := 0 },
         { x := some 1, y := some (-1), r := 0, g := 0, b := 0 }] ∧
     (run initialState [press 0 0, .cursorPos 800 600, release 800 600,
        .keyPoll (digitKey 3), press 400 300]).g_points =
        [{ x := some (-1), y := some 1, r := 0, g := 0, b := 0 },
         { x := some 1, y := some (-1), r := 0, g := 0, b := 0 },
         { x := some 0, y := some 0, r := 0, g := 1, b := 0 }] ∧
     (run initialState [press 0 0, .cursorPos 800 600, release 800 600,
        .keyPoll (digitKey 3), press 400 300, .keyPoll onlyC]).g_points.length = 0) ∧
    ((Mytest1.mouse_button_callback Mytest1.initialState
        GLFW_MOUSE_BUTTON_LEFT GLFW_PRESS 0 0).g_vertices =
        [{ x := some (-1), y := some 1, r := 1, g := 0, b := 0 }] ∧
     (Mytest1.cursor_position_callback
        (Mytest1.mouse_button_callback Mytest1.initialState
          GLFW_MOUSE_BUTTON_LEFT GLFW_PRESS 0 0) 800 600).g_vertices =
        [{ x := some (-1), y := some 1, r := 1, g := 0, b := 0 },
         { x := some 1, y := some (-1), r := 1, g := 0, b := 0 }] ∧
     (Mytest1.mouse_button_callback
        (Mytest1.processInput
          (Mytest1.mouse_button_callback
            (Mytest1.cursor_position_callback
              (Mytest1.mouse_button_callback Mytest1.initialState
                GLFW_MOUSE_BUTTON_LEFT GLFW_PRESS 0 0) 800 600)
            GLFW_MOUSE_BUTTON_LEFT GLFW_RELEASE 800 600)
          (Mytest1.digitKey 2))
        GLFW_MOUSE_BUTTON_LEFT GLFW_PRESS 400 300).g_vertices =
        [{ x := some (-1), y := some 1, r := 1, g := 0, b := 0 },
         { x := some 1, y := some (-1), r := 1, g := 0, b := 0 },
         { x := some 0, y := some 0, r := 0, g := 1, b := 0 }] ∧
     (Mytest1.processInput
        (Mytest1.mouse_button_callback
          (Mytest1.processInput
            (Mytest1.mouse_button_callback
              (Mytest1.cursor_position_callback
                (Mytest1.mouse_button_callback Mytest1.initialState
                  GLFW_MOUSE_BUTTON_LEFT GLFW_PRESS 0 0) 800 600)
              GLFW_MOUSE_BUTTON_LEFT GLFW_RELEASE 800 600)
            (Mytest1.digitKey 2))
          GLFW_MOUSE_BUTTON_LEFT GLFW_PRESS 400 300)
        Mytest1.onlyC).g_vertices.length = 0) := by
  refine ⟨⟨?_, ?_, ?_, ?_⟩, ⟨?_, ?_, ?_, ?_⟩⟩
  all_goals
    simp [run, step, press, release, mouse_button_callback, cursor_position_callback,
      processInput, digitKey, onlyC, noKeys, mkVertex, screenToNDC, fdiv, initialState,
      Mytest1.mouse_button_callback, Mytest1.cursor_position_callback,
      Mytest1.processInput, Mytest1.digitKey, Mytest1.onlyC, Mytest1.screenToNDC,
      Mytest1.initialState, GLFW_MOUSE_BUTTON_LEFT, GLFW_PRESS, GLFW_RELEASE]
  all_goals norm_num

/-! ## Colour stamping -/

/-- C5: for every state and every palette index `k` (1 black, 2 red, 3 green,
4 blue), polling with only digit key `k` down and then appending a point, by a
left press or by a cursor move while the button is held, yields the old list
followed by exactly one new vertex whose colour is palette entry `k`; the
vertices recorded before are unchanged. -/
theorem color_stamped_at_creation (s : State) (k : Nat) (col : ℚ × ℚ × ℚ)
    (hk : palette k = some col) (cx cy : ℚ) :
    (∃ v, (mouse_button_callback (processInput s (digitKey k))
          GLFW_MOUSE_BUTTON_LEFT GLFW_PRESS cx cy).g_points = s.g_points ++ [v] ∧
        v.rgb = col) ∧
    (∃ v, (cursor_position_callback
          (processInput { s with g_mousePressed := true } (digitKey k)) cx cy).g_points =
          s.g_points ++ [v] ∧
        v.rgb = col) := by
  have hc : (processInput s (digitKey k)).g_color = col ∧
      (processInput { s with g_mousePressed := true } (digitKey k)).g_color = col := by
    rcases k with _ | _ | _ | _ | _ | k
    · simp [palette] at hk
    · simp only [palette, Option.some.injEq] at hk
      subst hk
      simp [processInput_color, digitKey, noKeys]
    · simp only [palette, Option.some.injEq] at hk
      subst hk
      simp [processInput_color, digitKey, noKeys]
    · simp only [palette, Option.some.injEq] at hk
      subst hk
      simp [processInput_color, digitKey, noKeys]
    · simp only [palette, Option.some.injEq] at hk
      subst hk
      simp [processInput_color, digitKey, noKeys]
    · simp [palette] at hk
  constructor
  · refine ⟨mkVertex (processInput s (digitKey k)) cx cy, ?_, ?_⟩
    · rw [press_points, processInput_points]
      simp [digitKey, noKeys]
    · simp only [Vertex.rgb, mkVertex]
      rw [← hc.1]
  · refine ⟨mkVertex (processInput { s with g_mousePressed := true } (digitKey k)) cx cy,
      ?_, ?_⟩
    · rw [move_points_held _ _ _ (by rw [(processInput_frame _ _).2.2]),
        processInput_points]
      simp [digitKey, noKeys]
    · simp only [Vertex.rgb, mkVertex]
      rw [← hc.2]

/-- Witness for C5: green (key 3) selected in the initial state. -/
theorem color_stamped_at_creation_witness :
    palette 3 = some (0, 1, 0) ∧
    (∃ v, (mouse_button_callback (processInput initialState (digitKey 3))
          GLFW_MOUSE_BUTTON_LEFT GLFW_PRESS 400 300).g_points =
          initialState.g_points ++ [v] ∧
        v.rgb = (0, 1, 0)) ∧
    (∃ v, (cursor_position_callback
          (processInput { initialState with g_mousePressed := true } (digitKey 3))
          400 300).g_points = initialState.g_points ++ [v] ∧
        v.rgb = (0, 1, 0)) :=
  ⟨rfl, color_stamped_at_creation initialState 3 (0, 1, 0) rfl 400 300⟩

/-! ## Pointer gating -/

/-- Cursor moves while the button is not held leave the whole state unchanged. -/
theorem run_moves_not_held (ps : List (ℚ × ℚ)) :
    ∀ s : State, s.g_mousePressed = false → run s (cursorMoves ps) = s := by
  induction ps with
  | nil => intro s _; rfl
  | cons p ps ih =>
    intro s h
    have hs : step s (Event.cursorPos p.1 p.2) = s := move_not_held s p.1 p.2 h
    simp only [run, cursorMoves, List.map_cons, List.foldl_cons, hs]
    exact ih s h

/-- Cursor moves while the button is held append one vertex each. -/
theorem run_moves_held (ps : List (ℚ × ℚ)) :
    ∀ s : State, s.g_mousePressed = true →
      ∃ vs : List Vertex, vs.length = ps.length ∧
        (run s (cursorMoves ps)).g_points = s.g_points ++ vs := by
  induction ps with
  | nil => intro s _; exact ⟨[], rfl, by simp [run, cursorMoves]⟩
  | cons p ps ih =>
    intro s h
    have hp : (step s (Event.cursorPos p.1 p.2)).g_points =
        s.g_points ++ [mkVertex s p.1 p.2] := move_points_held s p.1 p.2 h
    have hm : (step s (Event.cursorPos p.1 p.2)).g_mousePressed = true := by
      simp [step, cursor_position_callback, h]
    obtain ⟨vs, hl, hv⟩ := ih (step s (Event.cursorPos p.1 p.2)) hm
    refine ⟨mkVertex s p.1 p.2 :: vs, by simp [hl], ?_⟩
    have hr : run s (cursorMoves (p :: ps)) =
        run (step s (Event.cursorPos p.1 p.2)) (cursorMoves ps) := rfl
    rw [hr, hv, hp]
    simp

/-- C6: for every state, after a left-button release any sequence of cursor
moves leaves the point list unchanged; a following left press appends exactly
one vertex, and after it any sequence of cursor moves appends exactly one
vertex per move. -/
theorem release_stops_press_resumes (s : State) (rx ry px py : ℚ)
    (idle drag : List (ℚ × ℚ)) :
    (run s (release rx ry :: cursorMoves idle)).g_points = s.g_points ∧
    (∃ v, (run s (release rx ry :: cursorMoves idle ++ [press px py])).g_points =
        s.g_points ++ [v]) ∧
    (∃ vs : List Vertex, vs.length = drag.length ∧
      (run s (release rx ry :: cursorMoves idle ++ [press px py] ++ cursorMoves drag)).g_points =
        (run s (release rx ry :: cursorMoves idle ++ [press px py])).g_points ++ vs) := by
  have hrel : (step s (release rx ry)).g_mousePressed = false ∧
      (step s (release rx ry)).g_points = s.g_points := by
    simp [step, release, mouse_button_callback, GLFW_MOUSE_BUTTON_LEFT, GLFW_PRESS,
      GLFW_RELEASE]
  have hidle : run s (release rx ry :: cursorMoves idle) = step s (release rx ry) := by
    have : run s (release rx ry :: cursorMoves idle) =
        run (step s (release rx ry)) (cursorMoves idle) := rfl
    rw [this, run_moves_not_held idle _ hrel.1]
  have happ : ∀ (a b : List Event), run s (a ++ b) = run (run s a) b := by
    intro a b; simp [run, List.foldl_append]
  have hpress : run s (release rx ry :: cursorMoves idle ++ [press px py]) =
      step (step s (release rx ry)) (press px py) := by
    have : release rx ry :: cursorMoves idle ++ [press px py] =
        (release rx ry :: cursorMoves idle) ++ [press px py] := rfl
    rw [this, happ, hidle]; rfl
  refine ⟨?_, ?_, ?_⟩
  · rw [hidle]; exact hrel.2
  · refine ⟨mkVertex (step s (release rx ry)) px py, ?_⟩
    rw [hpress]
    have := press_points (step s (release rx ry)) px py
    simp only [step, press] at this ⊢
    rw [this, ← hrel.2]; rfl
  · have hheld : (step (step s (release rx ry)) (press px py)).g_mousePressed = true := by
      simp [step, press, mouse_button_callback]
    obtain ⟨vs, hl, hv⟩ := run_moves_held drag _ hheld
    refine ⟨vs, hl, ?_⟩
    have : release rx ry :: cursorMoves idle ++ [press px py] ++ cursorMoves drag =
        (release rx ry :: cursorMoves idle ++ [press px py]) ++ cursorMoves drag := rfl
    rw [this, happ, hpress, hv]

/-! ## Clear and key polling -/

/-- C7: for every state, whatever the number of recorded points, the clear
command (key poll with only `C` down) yields an empty point list and leaves
the brush colour and the viewport width and height as they were. -/
theorem clear_empties_keeps_brush_viewport (s : State) :
    (processInput s onlyC).g_points = [] ∧
    (processInput s onlyC).g_color = s.g_color ∧
    (processInput s onlyC).g_width = s.g_width ∧
    (processInput s onlyC).g_height = s.g_height := by
  simp [processInput, onlyC, noKeys]

/-- C8: key polling is idempotent: for every state and every set of held keys,
polling twice with that set gives the same state as polling once; the clear
command on an already-empty point list leaves it empty. -/
theorem processInput_idempotent (s : State) (k : Keys) :
    processInput (processInput s k) k = processInput s k ∧
    (processInput { s with g_points := [] } onlyC).g_points = [] := by
  constructor
  · obtain ⟨e, k1, k2, k3, k4, c⟩ := k
    cases e <;> cases k1 <;> cases k2 <;> cases k3 <;> cases k4 <;> cases c <;>
      simp [processInput]
  · simp [processInput, onlyC, noKeys]

/-! ## Append-only point list -/

/-- C9: for every state and every event that is not the clear command (resize,
any mouse-button event, cursor move, key poll without `C`), the point list
before the event is a prefix of the point list after it, and the length grows
by at most one. -/
theorem points_append_only (s : State) (e : Event) (h : e.isClear = false) :
    s.g_points <+: (step s e).g_points ∧
      (step s e).g_points.length ≤ s.g_points.length + 1 := by
  cases e with
  | resize w h => simp [step, framebuffer_size_callback]
  | mouseButton b a cx cy =>
    simp only [step, mouse_button_callback]
    split
    · split
      · simp
      · split <;> simp
    · simp
  | cursorPos x y =>
    simp only [step, cursor_position_callback]
    split <;> simp
  | keyPoll k =>
    simp only [Event.isClear] at h
    simp [step, processInput_points, h]

/-- Witness for C9: a left press in the initial state. -/
theorem points_append_only_witness :
    (press 400 300).isClear = false ∧
      initialState.g_points <+: (step initialState (press 400 300)).g_points ∧
      (step initialState (press 400 300)).g_points.length ≤
        initialState.g_points.length + 1 :=
  ⟨rfl, points_append_only initialState (press 400 300) rfl⟩

/-! ## Render loop -/

/-- C11: when digit keys are held in a poll, `processInput` leaves the brush
colour equal to the palette entry of the highest-numbered held digit key (4
over 3 over 2 over 1), whatever the previous brush colour and whatever the
state of Escape and `C`; a poll with no digit key held leaves the brush colour
unchanged. -/
theorem highest_digit_key_wins (s : State) (k : Keys) :
    (∀ n : Nat, k.digitHeld n = true → (∀ m : Nat, k.digitHeld m = true → m ≤ n) →
      palette n = some (processInput s k).g_color) ∧
    ((∀ m : Nat, k.digitHeld m = false) → (processInput s k).g_color = s.g_color) := by
  obtain ⟨e, k1, k2, k3, k4, c⟩ := k
  constructor
  · intro n hn hmax
    have h2 : k2 = true → 2 ≤ n := fun h => hmax 2 h
    have h3 : k3 = true → 3 ≤ n := fun h => hmax 3 h
    have h4 : k4 = true → 4 ≤ n := fun h => hmax 4 h
    clear hmax
    rw [processInput_color]
    rcases n with _ | _ | _ | _ | _ | n
    · simp [Keys.digitHeld] at hn
    · have hk : k1 = true := hn
      cases k2 <;> cases k3 <;> cases k4 <;> simp_all [palette]
    · have hk : k2 = true := hn
      cases k3 <;> cases k4 <;> simp_all [palette]
    · have hk : k3 = true := hn
      cases k4 <;> simp_all [palette]
    · have hk : k4 = true := hn
      simp_all [palette]
    · simp [Keys.digitHeld] at hn
  · intro hnone
    have h1 := hnone 1
    have h2 := hnone 2
    have h3 := hnone 3
    have h4 := hnone 4
    simp only [Keys.digitHeld] at h1 h2 h3 h4
    rw [processInput_color]
    simp [h1, h2, h3, h4]

/-- Witness for C11: with keys 2 and 4 (and `C`) down over a red brush the
brush becomes blue, the entry of key 4; with only `C` down it stays red. -/
theorem highest_digit_key_wins_witness :
    palette 4 = some (processInput { initialState with g_color := (1, 0, 0) }
      { escape := false, key1 := false, key2 := true, key3 := false,
        key4 := true, keyC := true }).g_color ∧
    (processInput { initialState with g_color := (1, 0, 0) } onlyC).g_color = (1, 0, 0) :=
  ⟨(highest_digit_key_wins { initialState with g_color := (1, 0, 0) }
      { escape := false, key1 := false, key2 := true, key3 := false,
        key4 := true, keyC := true }).1 4 rfl
      (by
        intro m hm
        rcases m with _ | _ | _ | _ | _ | m
        all_goals first
          | omega
          | (simp [Keys.digitHeld] at hm)),
   (highest_digit_key_wins { initialState with g_color := (1, 0, 0) } onlyC).2
      (by
        intro m
        rcases m with _ | _ | _ | _ | _ | m <;> simp [Keys.digitHeld, onlyC, noKeys])⟩
